import Mathlib

/-!
Verification of the RAG-Application core pipeline against its specification.

Text is modelled as `List Char` (Python `str`), Python `float` arithmetic on
scores as exact rationals (`ℚ`), and the external collaborators (vector
database, embedding provider, generation provider) as oracle inputs, so every
definition below is an executable shallow embedding of the corresponding
Python function, keeping the source's names and control flow.
-/

/-! ## Basic text utilities (Python string operations) -/

/-- Python `str` whitespace test used by `str.strip()` and `str.split()`. -/
def isWs (c : Char) : Bool := c.isWhitespace

/-- Python `str.lower()` (per-character lowering). -/
def toLowerStr (s : List Char) : List Char := s.map Char.toLower

/-- Python `str.strip()`: drop leading and trailing whitespace. -/
def stripWs (s : List Char) : List Char :=
  ((s.dropWhile isWs).reverse.dropWhile isWs).reverse

/-- Python `min` on two machine integers (transcribed as an `if` so that it
evaluates in the kernel). -/
def pyminI (a b : Int) : Int := if a ≤ b then a else b

/-- Python `max` on two machine integers. -/
def pymaxI (a b : Int) : Int := if a ≤ b then b else a

/-- Python `min` on two floats, modelled on exact rationals. -/
def pyminQ (a b : ℚ) : ℚ := if a ≤ b then a else b

/-- Clamp a (possibly negative) Python slice index into `[0, len]`,
following Python's slice semantics for step `1`. -/
def sliceIndex (len : Nat) (i : Int) : Nat :=
  if i < 0 then (pymaxI 0 (len + i)).toNat else (pyminI i len).toNat

/-- Python `xs[a:b]` (step `1`). -/
def pySlice (xs : List Char) (a b : Int) : List Char :=
  (xs.take (sliceIndex xs.length b)).drop (sliceIndex xs.length a)

/-- Python `needle in hay` on strings (substring containment). -/
def pyIn (needle : List Char) : List Char → Bool
  | [] => needle.isEmpty
  | c :: rest => needle.isPrefixOf (c :: rest) || pyIn needle rest

/-- Worker for `runsBy`: scans the text once, `cur` holding the current run
of `p`-characters in reverse. -/
def runsByCore (p : Char → Bool) : List Char → List Char → List (List Char)
  | [], cur => if cur = [] then [] else [cur.reverse]
  | c :: cs, cur =>
    if p c then runsByCore p cs (c :: cur)
    else if cur = [] then runsByCore p cs []
    else cur.reverse :: runsByCore p cs []

/-- Python `str.split()` (split on whitespace runs, no empty parts) and more
generally the list of maximal runs of characters satisfying `p`. -/
def runsBy (p : Char → Bool) (l : List Char) : List (List Char) := runsByCore p l []

/-- Python `query.split()`. -/
def splitWs (s : List Char) : List (List Char) := runsBy (fun c => !isWs c) s

/-- A Python `\w` word character; the source only feeds it lowercased text, so
the ASCII reading of `\w` (alphanumeric or underscore) is used. -/
def isWordChar (c : Char) : Bool := c.isAlphanum || c = '_'

/-- `re.findall(r'\b\w{3,}\b', s.lower())`: the maximal word-character runs of
the lowercased text having length at least 3. -/
def wordTokens (s : List Char) : List (List Char) :=
  (runsBy isWordChar (toLowerStr s)).filter (fun w => 3 ≤ w.length)

/-- Decimal rendering of a natural number (Python f-string interpolation). -/
def natRepr (n : Nat) : List Char := (Nat.repr n).data

/-- Python `sep.join(parts)`. -/
def joinSep (sep : List Char) : List (List Char) → List Char
  | [] => []
  | [p] => p
  | p :: ps => p ++ sep ++ joinSep sep ps

/-! ## ChunkSplitter: `src/pdf_processor.py`, `TextProcessor.create_chunks` -/

/-- One document chunk with its metadata, as built by
`TextProcessor.create_chunks` (`pdf_processor.py` lines 22-31). -/
structure Chunk where
  page_content : List Char
  source : List Char
  chunk_id : Nat
  start_char : Int
  end_char : Int
  file_type : List Char
deriving DecidableEq

/-- `Path(source_name).suffix.lower()`: the lowercased extension including the
dot, empty when the name has no dot past its first character. -/
def fileTypeOf (name : List Char) : List Char :=
  if (name.drop 1).contains '.' then
    toLowerStr ('.' :: (name.reverse.takeWhile (fun c => c ≠ '.')).reverse)
  else []

/-- The `while start < len(text)` loop of `create_chunks`, transcribed with
explicit fuel because the Python loop does not terminate when
`chunk_size <= chunk_overlap` (the stride `chunk_size - chunk_overlap` is not
positive and `start` never passes `len(text)`); `none` means the fuel ran out
with the loop still running.  `start` is an `Int` because Python's `start`
goes negative when `chunk_overlap > chunk_size`. -/
def create_chunks_go (chunk_size chunk_overlap : Nat) (text source : List Char)
    (fuel : Nat) (start : Int) (chunk_id : Nat) : Option (List Chunk) :=
  match fuel with
  | 0 => if start < (text.length : Int) then none else some []
  | fuel + 1 =>
    if start < (text.length : Int) then
      let e : Int := start + (chunk_size : Int)
      let c : Chunk :=
        { page_content := pySlice text start e
          source := source
          chunk_id := chunk_id
          start_char := start
          end_char := pyminI e (text.length : Int)
          file_type := fileTypeOf source }
      (create_chunks_go chunk_size chunk_overlap text source fuel
          (start + ((chunk_size : Int) - (chunk_overlap : Int))) (chunk_id + 1)).map (c :: ·)
    else some []

/-- `TextProcessor.create_chunks(text, source_name)` with the configured
`chunk_size` and `chunk_overlap`, starting at offset 0 with chunk id 0. -/
def create_chunks (chunk_size chunk_overlap : Nat) (text source : List Char)
    (fuel : Nat) : Option (List Chunk) :=
  create_chunks_go chunk_size chunk_overlap text source fuel 0 0

/-- Closed form of the chunk emitted at start offset `k` with id `cid`
(used only to state the loop invariant of `create_chunks_go`). -/
def chunkAt (chunk_size : Nat) (text source : List Char) (k cid : Nat) : Chunk :=
  { page_content := pySlice text (k : Int) ((k : Int) + (chunk_size : Int))
    source := source
    chunk_id := cid
    start_char := (k : Int)
    end_char := pyminI ((k : Int) + (chunk_size : Int)) (text.length : Int)
    file_type := fileTypeOf source }

/-! ## RetrievalEngine: `src/retrieval_qa.py`, class `RAGChatbot` -/

/-- A retrieved document as returned by `ChromaVectorStore.similarity_search`:
`page_content` plus the `source` metadata entry (absent when the chunk's
metadata carries no `source`). -/
structure Doc where
  page_content : List Char
  source : Option (List Char)
deriving DecidableEq

/-- One conversation-memory entry (`self.memory` items,
`retrieval_qa.py` lines 288-292). -/
structure Exchange where
  question : List Char
  answer : List Char
  timestamp : ℚ
deriving DecidableEq

/-- `config.SIMILARITY_SEARCH_K` (`config.py` line 111). -/
def SIMILARITY_SEARCH_K : Nat := 4

/-- `self.max_memory_items` (`retrieval_qa.py` line 14). -/
def max_memory_items : Nat := 10

/-- `self.max_context_length` (`retrieval_qa.py` line 15). -/
def max_context_length : Nat := 8000

/-- The greeting list of `_is_simple_greeting` (`retrieval_qa.py` line 73). -/
def greetings : List (List Char) :=
  ["hi", "hello", "hey", "good morning", "good afternoon", "good evening"].map String.data

/-- `RAGChatbot._is_simple_greeting`: some greeting is a substring of the
lowercased stripped query, and the query has at most 3 whitespace tokens. -/
def is_simple_greeting (query : List Char) : Bool :=
  (greetings.any fun g => pyIn g (stripWs (toLowerStr query)))
    && decide ((splitWs query).length ≤ 3)

/-- The stop-word set of `_optimize_query` (`retrieval_qa.py` line 80). -/
def stop_words : List (List Char) :=
  ["the", "a", "an", "and", "or", "but", "in", "on", "at", "to", "for", "of",
   "with", "by", "is", "are", "was", "were", "be", "been", "being", "have",
   "has", "had", "do", "does", "did", "will", "would", "could", "should"].map String.data

/-- `RAGChatbot._optimize_query`: append up to 5 non-stop-word tokens of
length ≥ 3 to the original query. -/
def optimize_query (query : List Char) : List Char :=
  let words := wordTokens query
  let key_terms := words.filter (fun w => ¬ w ∈ stop_words)
  if key_terms ≠ [] then query ++ " ".data ++ joinSep " ".data (key_terms.take 5)
  else query

/-- The relevance score of `_rerank_documents` (`retrieval_qa.py` lines
98-110): `word_overlap * 10 + min(content_length / 100, 10)`.  Python sets of
tokens are modelled as `Finset`s and float arithmetic as exact rationals. -/
def rerankScore (query : List Char) (doc : Doc) : ℚ :=
  let query_words := (wordTokens query).toFinset
  let content_words := (wordTokens doc.page_content).toFinset
  let word_overlap := (query_words ∩ content_words).card
  let content_length := doc.page_content.length
  (word_overlap : ℚ) * 10 + pyminQ ((content_length : ℚ) / 100) 10

/-- The descending comparison used by
`scored_docs.sort(key=lambda x: x[0], reverse=True)` on `(score, doc)` pairs:
Python's sort is stable, which `List.insertionSort` with this relation is. -/
def scoreGE (a b : ℚ × Doc) : Prop := b.1 ≤ a.1

instance : DecidableRel scoreGE := fun a b => inferInstanceAs (Decidable (b.1 ≤ a.1))

instance : IsTotal (ℚ × Doc) scoreGE := ⟨fun a b => le_total b.1 a.1⟩

instance : IsTrans (ℚ × Doc) scoreGE := ⟨fun _ _ _ h1 h2 => le_trans h2 h1⟩

/-- `RAGChatbot._rerank_documents`: score every candidate, stable-sort the
`(score, doc)` pairs descending by score, return the documents. -/
def rerank_documents (docs : List Doc) (query : List Char) : List Doc :=
  if docs = [] then docs
  else
    let scored_docs := docs.map fun doc => (rerankScore query doc, doc)
    (List.insertionSort scoreGE scored_docs).map (·.2)

/-- `RAGChatbot._prepare_context` (`retrieval_qa.py` lines 131-152). -/
def prepare_context (docs : List Doc) : List Char :=
  if docs = [] then "No relevant documents found.".data
  else
    let context_parts := docs.enum.map fun p =>
      "[Source ".data ++ natRepr (p.1 + 1) ++ ": ".data
        ++ (p.2.source.getD ("Document ".data ++ natRepr (p.1 + 1)))
        ++ "]\n".data ++ stripWs p.2.page_content
    let context := "\n\n".data ++ List.replicate 50 '=' ++ joinSep "\n\n".data context_parts
    let context_header := "[Context contains ".data ++ natRepr docs.length
      ++ " relevant sections, ".data ++ natRepr context.length
      ++ " characters total]\n\n".data
    context_header ++ context

/-- `RAGChatbot._get_memory_context` (`retrieval_qa.py` lines 272-284): the
last 3 exchanges, each prior answer truncated to 200 characters. -/
def get_memory_context (memory : List Exchange) : List Char :=
  if memory = [] then []
  else
    let memory_parts := (memory.drop (memory.length - 3)).flatMap fun e =>
      ["Previous Q: ".data ++ e.question,
       "Previous A: ".data ++ e.answer.take 200 ++ "...".data]
    if memory_parts ≠ [] then
      "[CONVERSATION HISTORY]\n".data ++ joinSep "\n".data memory_parts
        ++ "\n[END HISTORY]".data
    else []

/-- `RAGChatbot._update_memory` (`retrieval_qa.py` lines 286-296): append the
exchange, then keep only the last `max_memory_items` entries. -/
def update_memory (memory : List Exchange) (question answer : List Char)
    (now : ℚ) : List Exchange :=
  let memory' := memory ++ [{ question := question, answer := answer, timestamp := now }]
  if max_memory_items < memory'.length then memory'.drop (memory'.length - max_memory_items)
  else memory'

/-- `RAGChatbot.clear_memory` (`retrieval_qa.py` lines 321-322). -/
def clear_memory : List Exchange := []

/-- The `for line in lines` loop of `_optimize_context_length`
(`retrieval_qa.py` lines 309-313): keep whole lines while they fit, stop at
the first line that would push past the budget. -/
def optimize_lines (budget : Nat) : List (List Char) → Nat → List (List Char)
  | [], _ => []
  | line :: rest, current_length =>
    if budget < current_length + line.length then []
    else line :: optimize_lines budget rest (current_length + line.length + 1)

/-- `RAGChatbot._optimize_context_length` (`retrieval_qa.py` lines 298-315).
Defined in the source but never invoked by `chat` or anything else. -/
def optimize_context_length (context : List Char) : List Char :=
  if context.length ≤ max_context_length then context
  else
    let lines := context.splitOn '\n'
    joinSep "\n".data (optimize_lines max_context_length lines 0)
      ++ "\n[...context truncated for length...]".data

/-- The environment's response to one generation request (`requests.post` on
`/api/generate` in `llm_answer`): either an HTTP-ok JSON body whose
`response` field may be present or absent, a `requests` exception (connection
error or bad HTTP status via `raise_for_status`), or any other exception
while processing the response (e.g. malformed JSON). -/
inductive GenOutcome where
  | ok (response : Option (List Char))
  | requestError (msg : List Char)
  | processingError (msg : List Char)
deriving DecidableEq

/-- The prompt string `llm_answer` sends: its `system_prompt` template with
`{context}` and `{question}` substituted (`retrieval_qa.py` lines 158-175). -/
def user_prompt (prompt context : List Char) : List Char :=
  "You are a helpful assistant that answers questions based on the provided documents. Be natural, conversational, and concise.\n\nGuidelines:\n- Answer directly and naturally, like you're having a conversation\n- Keep responses short and to the point\n- Only use information from the provided context\n- If you don't know something, just say so simply\n- Don't be overly formal or structured unless needed\n- For simple greetings, respond naturally but guide toward document-related questions\n\nContext from documents:\n".data
    ++ context ++ "\n\nQuestion: ".data ++ prompt ++ "\n\nAnswer:".data

/-- `RAGChatbot.llm_answer` (non-streaming, `retrieval_qa.py` lines 188-199):
every failure of the generation call is caught and converted into a textual
answer; a missing `response` field yields the fallback string.  The function
is total: no outcome escapes as an exception. -/
def llm_answer (prompt context : List Char) (outcome : GenOutcome) : List Char :=
  let _ := user_prompt prompt context
  match outcome with
  | .ok (some r) => r
  | .ok none => "[No answer returned]".data
  | .requestError m => "Error communicating with Ollama: ".data ++ m
  | .processingError m => "Error processing response: ".data ++ m

/-- The wall-clock stats dictionary returned by `chat`; the measured
durations are environment inputs of the model (their `round(_, 3)` is
abstracted away). -/
structure Timing where
  retrieval_time : ℚ
  generation_time : ℚ
  total_time : ℚ
deriving DecidableEq

/-- The dictionary returned by `RAGChatbot.chat`, plus the observation
`context`: the context string the turn passed to the generation call
(`none` when the greeting fast path skipped generation). -/
structure ChatResult where
  answer : List Char
  sources : List Doc
  stats : Timing
  context : Option (List Char)
deriving DecidableEq

/-- The fixed conversational reply of the greeting fast path
(`retrieval_qa.py` line 30). -/
def greeting_reply : List Char :=
  "Hi! I'm here to help you with questions about your documents. What would you like to know?".data

/-- `RAGChatbot.chat` (`retrieval_qa.py` lines 24-69).  The vector store is
the oracle `retrieve` (its argument is the optimized query and `k`), the
generation network call is the oracle outcome `gen`, and the measured wall
times are the input `timing`; `_update_stats` touches only the running
performance averages and is omitted.  Returns the result and the new
conversation memory (`self.memory`). -/
def chat (memory : List Exchange) (prompt : List Char)
    (retrieve : List Char → Nat → List Doc) (gen : GenOutcome)
    (timing : Timing) (now : ℚ) : ChatResult × List Exchange :=
  if is_simple_greeting prompt then
    ({ answer := greeting_reply, sources := [],
       stats := { retrieval_time := 0, generation_time := 0, total_time := 0 },
       context := none }, memory)
  else
    let optimized_query := optimize_query prompt
    let docs := retrieve optimized_query (SIMILARITY_SEARCH_K * 2)
    let ranked_docs := (rerank_documents docs prompt).take SIMILARITY_SEARCH_K
    let context0 := prepare_context ranked_docs
    let memory_context := get_memory_context memory
    let context := if memory_context ≠ [] then memory_context ++ "\n\n".data ++ context0
      else context0
    let answer := llm_answer prompt context gen
    let memory' := update_memory memory prompt answer now
    ({ answer := answer, sources := ranked_docs, stats := timing,
       context := some context }, memory')

/-! ## EmbeddingCache: `src/embeddings.py`, class `EmbeddingManager` -/

/-- An embedding vector (a fixed-dimension sequence of floats, modelled as
exact rationals). -/
abbrev Emb : Type := List ℚ

/-- The on-disk cache, abstracted as a read mapping from text to the cached
embedding (`_load_from_cache` after `_get_cache_key`; the model and hashing
are fixed, so the key is determined by the text).  `_save_to_cache` write-backs
do not change any output of a single `embed_text` call under a deterministic
provider, so the cache state is read-only here. -/
def Cache : Type := List Char → Option Emb

/-- The embedding provider endpoint, abstracted as a mapping from the prompt
text to the successful response's `embedding` field; `none` covers both a
`requests` exception and a response without the expected field, which
`_process_batch` turns into a raised `RuntimeError`. -/
def Provider : Type := List Char → Option Emb

/-- The first pass of `_process_batch` (`embeddings.py` lines 84-92): cache
hits become `(index, embedding)` pairs immediately, misses are collected with
their batch-relative index preserved (the source keeps the miss texts and
indices in two parallel lists; they are paired here). -/
def first_pass (cache : Cache) : List (Nat × List Char) →
    List (Nat × Emb) × List (Nat × List Char)
  | [] => ([], [])
  | (idx, text) :: rest =>
    let r := first_pass cache rest
    match cache text with
    | some e => ((idx, e) :: r.1, r.2)
    | none => (r.1, (idx, text) :: r.2)

/-- The second pass of `_process_batch` (`embeddings.py` lines 95-114): fetch
every uncached text from the provider, pairing the result with the preserved
original index; any provider failure raises (propagates as `Except.error`). -/
def second_pass (provider : Provider) : List (Nat × List Char) →
    Except (List Char) (List (Nat × Emb))
  | [] => .ok []
  | (idx, text) :: rest =>
    match provider text with
    | some e => (second_pass provider rest).map ((idx, e) :: ·)
    | none => .error ("Request error".data)

/-- The ascending comparison of `batch_embeddings.sort(key=lambda x: x[0])`. -/
def idxLE (a b : Nat × Emb) : Prop := a.1 ≤ b.1

instance : DecidableRel idxLE := fun a b => inferInstanceAs (Decidable (a.1 ≤ b.1))

instance : IsTotal (Nat × Emb) idxLE := ⟨fun a b => Nat.le_total a.1 b.1⟩

instance : IsTrans (Nat × Emb) idxLE := ⟨fun _ _ _ h1 h2 => Nat.le_trans h1 h2⟩

/-- `EmbeddingManager._process_batch`: resolve cache hits, fetch misses from
the provider, merge, sort back by the preserved batch-relative index, and
return the embeddings only. -/
def process_batch (cache : Cache) (provider : Provider)
    (batch_texts : List (List Char)) : Except (List Char) (List Emb) :=
  let fp := first_pass cache batch_texts.enum
  (second_pass provider fp.2).map fun fetched =>
    (List.insertionSort idxLE (fp.1 ++ fetched)).map (·.2)

/-- The default `batch_size` of `embed_text` (`embeddings.py` line 53). -/
def batch_size : Nat := 10

/-- `range(0, len(text_list), batch_size)` slicing: the consecutive batches. -/
def toBatches (l : List (List Char)) : List (List (List Char)) :=
  if h : l = [] then []
  else l.take batch_size :: toBatches (l.drop batch_size)
termination_by l.length
decreasing_by
  cases l with
  | nil => exact absurd rfl h
  | cons x xs =>
    simp only [List.length_drop, List.length_cons, batch_size]
    omega

/-- `EmbeddingManager.embed_text` on a list input: process the fixed-size
batches in order and concatenate their embeddings (the loop's
`embeddings.extend`), propagating any raised provider error. -/
def embed_text (cache : Cache) (provider : Provider) :
    List (List (List Char)) → Except (List Char) (List Emb)
  | [] => .ok []
  | b :: bs => do
    let e ← process_batch cache provider b
    let rest ← embed_text cache provider bs
    .ok (e ++ rest)

/-- `embed_text` applied to the batches of the input texts. -/
def embed_text_all (cache : Cache) (provider : Provider)
    (texts : List (List Char)) : Except (List Char) (List Emb) :=
  embed_text cache provider (toBatches texts)

/-- The cache-then-provider resolution of a single text: what `embed_text`
must produce at that text's position. -/
def resolve (cache : Cache) (provider : Provider) (text : List Char) : Option Emb :=
  (cache text).orElse fun _ => provider text

/-! ## DocumentStore: `src/vector_store.py`, `ChromaVectorStore.get_collection_info` -/

/-- The metadata dictionary of one committed chunk, reduced to the field
`get_collection_info` reads: its `source` entry, absent when the dictionary
has no `'source'` key. -/
structure MetaD where
  source : Option (List Char)
deriving DecidableEq

/-- One committed collection entry as returned by `collection.get()`:
document text plus its metadata (`none` models a `None`/falsy metadata entry,
which the source skips). -/
structure CollectionRec where
  document : List Char
  metadata : Option MetaD
deriving DecidableEq

/-- The `collection_name`/`document_count`/`file_count` dictionary returned
by `get_collection_info`. -/
structure CollectionInfo where
  document_count : Nat
  file_count : Nat
deriving DecidableEq

/-- The `source` values scanned by `get_collection_info`
(`if metadata and 'source' in metadata`). -/
def sourcesOf (records : List CollectionRec) : List (List Char) :=
  records.filterMap fun r => r.metadata.bind (·.source)

/-- `ChromaVectorStore.get_collection_info` (`vector_store.py` lines 99-132):
`document_count` is the total chunk count; `file_count` is the number of
distinct `source` values (a Python set, modelled by `dedup`), falling back to
the chunk count when the collection is non-empty but no `source` was found. -/
def get_collection_info (records : List CollectionRec) : CollectionInfo :=
  let total_chunks := records.length
  let unique_files :=
    if total_chunks = 0 then 0
    else
      let n := (sourcesOf records).dedup.length
      if n = 0 ∧ 0 < total_chunks then total_chunks else n
  { document_count := total_chunks, file_count := unique_files }

/-! ## Helper lemmas -/

theorem isPrefixOf_self_append (g b : List Char) : g.isPrefixOf (g ++ b) = true := by
  induction g with
  | nil =>
    rw [List.nil_append]
    cases b <;> rfl
  | cons c g ih =>
    rw [List.cons_append]
    show (c == c && g.isPrefixOf (g ++ b)) = true
    rw [ih]
    simp

theorem pyIn_of_decomp (g : List Char) : ∀ a b : List Char, pyIn g (a ++ g ++ b) = true := by
  intro a
  induction a with
  | nil =>
    intro b
    rw [List.nil_append]
    cases g with
    | nil => cases b <;> rfl
    | cons x g' =>
      rw [List.cons_append]
      show (((x :: g').isPrefixOf (x :: (g' ++ b))) || pyIn (x :: g') (g' ++ b)) = true
      have : (x :: g').isPrefixOf (x :: (g' ++ b)) = true := by
        rw [show x :: (g' ++ b) = (x :: g') ++ b from rfl]
        exact isPrefixOf_self_append (x :: g') b
      rw [this]
      simp
  | cons c a ih =>
    intro b
    rw [List.cons_append, List.cons_append]
    show ((g.isPrefixOf (c :: (a ++ g ++ b))) || pyIn g (a ++ g ++ b)) = true
    rw [ih b]
    simp

theorem is_simple_greeting_of_contains (prompt : List Char)
    (h3 : (splitWs prompt).length ≤ 3)
    (hg : ∃ g ∈ greetings, ∃ a b, stripWs (toLowerStr prompt) = a ++ g ++ b) :
    is_simple_greeting prompt = true := by
  obtain ⟨g, hmem, a, b, heq⟩ := hg
  simp only [is_simple_greeting, Bool.and_eq_true, List.any_eq_true, decide_eq_true_eq]
  exact ⟨⟨g, hmem, by rw [heq]; exact pyIn_of_decomp g a b⟩, h3⟩

/-! ## C4: greeting fast path -/

/-- C4: for every question of at most 3 whitespace tokens that contains a
greeting term (as a substring of its lowercased stripped text, which is what
the code tests), `chat` skips retrieval and generation entirely — the result
does not depend on the retriever or the generation outcome, carries the fixed
conversational reply, an empty sources list, all-zero stats, no generation
context, and leaves the conversation memory untouched. -/
theorem greeting_fast_path (prompt : List Char)
    (h3 : (splitWs prompt).length ≤ 3)
    (hg : ∃ g ∈ greetings, ∃ a b, stripWs (toLowerStr prompt) = a ++ g ++ b) :
    ∀ (memory : List Exchange) (retrieve : List Char → Nat → List Doc)
      (gen : GenOutcome) (timing : Timing) (now : ℚ),
      chat memory prompt retrieve gen timing now =
        ({ answer := greeting_reply, sources := [],
           stats := { retrieval_time := 0, generation_time := 0, total_time := 0 },
           context := none }, memory) := by
  intro memory retrieve gen timing now
  rw [chat, if_pos]
  exact of_decide_eq_true (by rw [is_simple_greeting_of_contains prompt h3 hg]; rfl)

/-- Witness for C4 at the spec's own scenario, the 3-token greeting
"hi there". -/
theorem greeting_fast_path_witness :
    (splitWs "hi there".data).length ≤ 3
  ∧ chat [] "hi there".data (fun _ _ => []) (.ok none) ⟨1, 2, 3⟩ 0 =
      ({ answer := greeting_reply, sources := [],
         stats := { retrieval_time := 0, generation_time := 0, total_time := 0 },
         context := none }, []) :=
  ⟨by decide,
    greeting_fast_path "hi there".data (by decide)
      ⟨"hi".data, by decide, [], " there".data, by decide⟩ [] _ _ _ _⟩

/-! ## C10: greeting detection is substring containment, not token membership -/

/-- C10: greeting detection tests substring containment of the whole
lowercased question: the question "highest mountain?" has 2 whitespace
tokens, none of which (lowercased or not) is a greeting word, yet `chat`
takes the greeting fast path — fixed reply, no sources, no retrieval or
generation — because "highest" contains "hi". -/
theorem greeting_substring_not_token :
    (splitWs "highest mountain?".data).length ≤ 3
  ∧ (∀ t ∈ splitWs "highest mountain?".data, ¬ toLowerStr t ∈ greetings)
  ∧ chat [] "highest mountain?".data
      (fun _ _ => [{ page_content := "alpha beta".data, source := some "a.txt".data }])
      (.ok (some "an answer".data)) ⟨1, 2, 3⟩ 0
      = ({ answer := greeting_reply, sources := [],
           stats := { retrieval_time := 0, generation_time := 0, total_time := 0 },
           context := none }, []) := by
  refine ⟨by decide, by decide, ?_⟩
  decide

/-! ## C8: conversation memory is a capacity-bounded FIFO -/

theorem update_memory_length_le (memory : List Exchange) (q a : List Char) (now : ℚ) :
    (update_memory memory q a now).length ≤ max_memory_items := by
  rw [update_memory]
  split
  · rw [List.length_drop]
    simp only [max_memory_items] at *
    omega
  · simp only [max_memory_items, List.length_append, List.length_singleton] at *
    omega

/-- C8: after any update the memory holds at most `max_memory_items = 10`
exchanges; an append on a full memory drops exactly the oldest exchange and
keeps the rest in insertion order; `clear_memory` empties it; and a `chat`
turn keeps the bound. -/
theorem memory_bounded_fifo (memory : List Exchange) (q a : List Char) (now : ℚ) :
    (update_memory memory q a now).length ≤ max_memory_items
  ∧ (memory.length = max_memory_items →
      update_memory memory q a now
        = memory.tail ++ [({ question := q, answer := a, timestamp := now } : Exchange)])
  ∧ clear_memory = []
  ∧ ∀ (prompt : List Char) (retrieve : List Char → Nat → List Doc)
      (gen : GenOutcome) (timing : Timing),
      memory.length ≤ max_memory_items →
      (chat memory prompt retrieve gen timing now).2.length ≤ max_memory_items := by
  refine ⟨update_memory_length_le memory q a now, ?_, rfl, ?_⟩
  · intro hfull
    rw [update_memory]
    rw [if_pos (by simp [hfull, max_memory_items])]
    have h1 : (memory ++ [({ question := q, answer := a, timestamp := now } : Exchange)]).length
        - max_memory_items = 1 := by
      simp [hfull]
    rw [h1, List.drop_append_of_le_length (by simp [hfull, max_memory_items]), List.drop_one]
  · intro prompt retrieve gen timing hmem
    rw [chat]
    split
    · exact hmem
    · dsimp only
      exact update_memory_length_le _ _ _ _

/-- Witness for C8 on a full memory of 10 exchanges. -/
theorem memory_bounded_fifo_witness :
    (List.replicate 10 ({ question := "q".data, answer := "a".data, timestamp := 0 } : Exchange)).length
      = max_memory_items
  ∧ update_memory
      (List.replicate 10 ({ question := "q".data, answer := "a".data, timestamp := 0 } : Exchange))
      "q2".data "a2".data 1
    = (List.replicate 10 ({ question := "q".data, answer := "a".data, timestamp := 0 } : Exchange)).tail
        ++ [{ question := "q2".data, answer := "a2".data, timestamp := 1 }] :=
  ⟨by decide,
    (memory_bounded_fifo
      (List.replicate 10 { question := "q".data, answer := "a".data, timestamp := 0 })
      "q2".data "a2".data 1).2.1 (by decide)⟩

/-! ## C7: collection info counts chunks and distinct sources -/

/-- C7: `get_collection_info` reports the total chunk count as
`document_count`; `file_count` is the number of distinct `source` metadata
values whenever at least one chunk carries a `source`, and falls back to the
chunk count when the collection is non-empty but no chunk carries one. -/
theorem collection_info_counts (records : List CollectionRec) :
    (get_collection_info records).document_count = records.length
  ∧ (sourcesOf records ≠ [] →
      (get_collection_info records).file_count = (sourcesOf records).toFinset.card)
  ∧ (sourcesOf records = [] → records ≠ [] →
      (get_collection_info records).file_count = records.length) := by
  refine ⟨rfl, ?_, ?_⟩
  · intro hsrc
    have hrec : records ≠ [] := by
      intro h
      rw [h] at hsrc
      exact hsrc rfl
    have hdedup : (sourcesOf records).dedup ≠ [] := by
      simpa [List.dedup_eq_nil] using hsrc
    rw [get_collection_info]
    simp only [List.card_toFinset]
    rw [if_neg (by simpa [List.length_eq_zero] using hrec)]
    rw [if_neg (by simp [List.length_eq_zero, hdedup])]
  · intro hsrc hrec
    rw [get_collection_info]
    rw [if_neg (by simpa [List.length_eq_zero] using hrec)]
    rw [if_pos ⟨by simp [hsrc], by simpa [List.length_pos, List.length_eq_zero] using hrec⟩]

/-- Witness for C7 at the spec's example: 7 chunks from one source and 3
from a second yield `document_count` 10 and `file_count` 2. -/
theorem collection_info_counts_witness :
    sourcesOf (List.replicate 7 ({ document := "c".data, metadata := some ⟨some "a.pdf".data⟩ } : CollectionRec)
        ++ List.replicate 3 ({ document := "c".data, metadata := some ⟨some "b.pdf".data⟩ } : CollectionRec)) ≠ []
  ∧ (get_collection_info (List.replicate 7 ({ document := "c".data, metadata := some ⟨some "a.pdf".data⟩ } : CollectionRec)
        ++ List.replicate 3 ({ document := "c".data, metadata := some ⟨some "b.pdf".data⟩ } : CollectionRec))).file_count
      = (sourcesOf (List.replicate 7 ({ document := "c".data, metadata := some ⟨some "a.pdf".data⟩ } : CollectionRec)
        ++ List.replicate 3 ({ document := "c".data, metadata := some ⟨some "b.pdf".data⟩ } : CollectionRec))).toFinset.card
  ∧ get_collection_info (List.replicate 7 ({ document := "c".data, metadata := some ⟨some "a.pdf".data⟩ } : CollectionRec)
        ++ List.replicate 3 ({ document := "c".data, metadata := some ⟨some "b.pdf".data⟩ } : CollectionRec))
      = { document_count := 10, file_count := 2 } :=
  ⟨by decide,
    (collection_info_counts _).2.1 (by decide),
    by decide⟩

/-! ## C9: generation failures are caught inside llm_answer -/

/-- C9: every failure of the generation call is converted by `llm_answer`
into a textual error answer, and for every outcome a non-greeting `chat` turn
completes with exactly the string `llm_answer` produced for the context it
passed — no generation exception reaches the caller. -/
theorem generation_failure_caught (prompt : List Char) (memory : List Exchange)
    (retrieve : List Char → Nat → List Doc) (timing : Timing) (now : ℚ)
    (h : is_simple_greeting prompt = false) :
    (∀ context msg,
        llm_answer prompt context (.requestError msg)
          = "Error communicating with Ollama: ".data ++ msg
      ∧ llm_answer prompt context (.processingError msg)
          = "Error processing response: ".data ++ msg)
  ∧ (∀ gen : GenOutcome, ∃ context,
        (chat memory prompt retrieve gen timing now).1.context = some context
      ∧ (chat memory prompt retrieve gen timing now).1.answer
          = llm_answer prompt context gen)
  ∧ (∀ msg, (chat memory prompt retrieve (.requestError msg) timing now).1.answer
      = "Error communicating with Ollama: ".data ++ msg) := by
  refine ⟨fun context msg => ⟨rfl, rfl⟩, ?_, ?_⟩
  · intro gen
    rw [chat, if_neg (by simp [h])]
    exact ⟨_, rfl, rfl⟩
  · intro msg
    rw [chat, if_neg (by simp [h])]
    rfl

/-- Witness for C9 at a concrete non-greeting question and failing call. -/
theorem generation_failure_caught_witness :
    is_simple_greeting "what is alpha".data = false
  ∧ ∀ msg, (chat [] "what is alpha".data (fun _ _ => []) (.requestError msg) ⟨0, 0, 0⟩ 0).1.answer
      = "Error communicating with Ollama: ".data ++ msg :=
  ⟨by decide,
    (generation_failure_caught "what is alpha".data [] (fun _ _ => []) ⟨0, 0, 0⟩ 0 (by decide)).2.2⟩

/-! ## C5: re-ranking is a stable descending sort, truncated to k -/

theorem orderedInsert_filter_eq (x : ℚ × Doc) (s : ℚ) (hx : x.1 = s) :
    ∀ l : List (ℚ × Doc),
      (List.orderedInsert scoreGE x l).filter (fun p => decide (p.1 = s))
        = x :: l.filter (fun p => decide (p.1 = s)) := by
  intro l
  induction l with
  | nil => simp [List.orderedInsert, hx]
  | cons y ys ih =>
    rw [List.orderedInsert]
    by_cases hle : scoreGE x y
    · rw [if_pos hle, List.filter_cons_of_pos (by simpa using hx)]
    · rw [if_neg hle]
      have hy : y.1 ≠ s := by
        intro hys
        exact hle (le_of_eq (by rw [hys, hx]))
      rw [List.filter_cons_of_neg (by simpa using hy),
        List.filter_cons_of_neg (by simpa using hy), ih]

theorem orderedInsert_filter_ne (x : ℚ × Doc) (s : ℚ) (hx : ¬ x.1 = s) :
    ∀ l : List (ℚ × Doc),
      (List.orderedInsert scoreGE x l).filter (fun p => decide (p.1 = s))
        = l.filter (fun p => decide (p.1 = s)) := by
  intro l
  induction l with
  | nil => simp [List.orderedInsert, hx]
  | cons y ys ih =>
    rw [List.orderedInsert]
    by_cases hle : scoreGE x y
    · rw [if_pos hle, List.filter_cons_of_neg (by simpa using hx)]
    · rw [if_neg hle]
      by_cases hy : y.1 = s
      · rw [List.filter_cons_of_pos (by simpa using hy),
          List.filter_cons_of_pos (by simpa using hy), ih]
      · rw [List.filter_cons_of_neg (by simpa using hy),
          List.filter_cons_of_neg (by simpa using hy), ih]

theorem insertionSort_filter (s : ℚ) :
    ∀ l : List (ℚ × Doc),
      (List.insertionSort scoreGE l).filter (fun p => decide (p.1 = s))
        = l.filter (fun p => decide (p.1 = s)) := by
  intro l
  induction l with
  | nil => rfl
  | cons x xs ih =>
    rw [List.insertionSort]
    by_cases hx : x.1 = s
    · rw [orderedInsert_filter_eq x s hx, ih,
        List.filter_cons_of_pos (by simpa using hx)]
    · rw [orderedInsert_filter_ne x s hx, ih,
        List.filter_cons_of_neg (by simpa using hx)]

theorem mem_scored_fst (query : List Char) (docs : List Doc) (p : ℚ × Doc)
    (hp : p ∈ List.insertionSort scoreGE (docs.map fun d => (rerankScore query d, d))) :
    p.1 = rerankScore query p.2 := by
  have hmem := (List.perm_insertionSort scoreGE
    (docs.map fun d => (rerankScore query d, d))).mem_iff.mp hp
  obtain ⟨d, _, hd⟩ := List.mem_map.mp hmem
  rw [← hd]

theorem map_snd_scored (query : List Char) (docs : List Doc) :
    (docs.map fun d => (rerankScore query d, d)).map (fun x => x.2) = docs := by
  rw [List.map_map]
  exact List.map_id docs

theorem filter_score_map_snd (query : List Char) (s : ℚ) :
    ∀ L : List (ℚ × Doc), (∀ p ∈ L, p.1 = rerankScore query p.2) →
      (L.map (fun x => x.2)).filter (fun d => decide (rerankScore query d = s))
        = (L.filter (fun p => decide (p.1 = s))).map (fun x => x.2) := by
  intro L
  induction L with
  | nil => intro _; rfl
  | cons x xs ih =>
    intro h
    have hx := h x (List.mem_cons_self x xs)
    have ih' := ih fun p hp => h p (List.mem_cons_of_mem x hp)
    rw [List.map_cons]
    by_cases hs : rerankScore query x.2 = s
    · rw [List.filter_cons_of_pos (by simpa using hs),
        List.filter_cons_of_pos (by simp [hx, hs]), List.map_cons, ih']
    · rw [List.filter_cons_of_neg (by simpa using hs),
        List.filter_cons_of_neg (by simp [hx, hs]), ih']

/-- C5: `_rerank_documents` returns a permutation of its candidates, sorted
in descending score order, and the sort is stable — for every score value
the sub-list of documents carrying it is exactly that of the input, in
retrieval order; and a non-greeting `chat` keeps only the first
`SIMILARITY_SEARCH_K` ranked documents as its sources. -/
theorem rerank_stable_descending (docs : List Doc) (query : List Char) :
    (rerank_documents docs query).Perm docs
  ∧ (rerank_documents docs query).Pairwise
      (fun a b => rerankScore query b ≤ rerankScore query a)
  ∧ (∀ s : ℚ,
      (rerank_documents docs query).filter (fun d => decide (rerankScore query d = s))
        = docs.filter (fun d => decide (rerankScore query d = s)))
  ∧ ∀ (memory : List Exchange) (retrieve : List Char → Nat → List Doc)
      (gen : GenOutcome) (timing : Timing) (now : ℚ),
      is_simple_greeting query = false →
      (chat memory query retrieve gen timing now).1.sources
        = (rerank_documents (retrieve (optimize_query query) (SIMILARITY_SEARCH_K * 2))
            query).take SIMILARITY_SEARCH_K := by
  refine ⟨?_, ?_, ?_, ?_⟩
  · rw [rerank_documents]
    split
    · exact .refl _
    · refine ((List.perm_insertionSort scoreGE
        (docs.map fun d => (rerankScore query d, d))).map (fun x => x.2)).trans ?_
      rw [map_snd_scored]
  · rw [rerank_documents]
    split
    · next h0 => subst h0; exact List.Pairwise.nil
    · have hs := List.sorted_insertionSort scoreGE
        (docs.map fun d => (rerankScore query d, d))
      rw [List.pairwise_map]
      refine hs.imp_of_mem ?_
      intro a b ha hb hab
      rw [← mem_scored_fst query docs a ha, ← mem_scored_fst query docs b hb]
      exact hab
  · intro s
    rw [rerank_documents]
    split
    · rfl
    · rw [filter_score_map_snd query s _ (fun p hp => mem_scored_fst query docs p hp),
        insertionSort_filter s,
        ← filter_score_map_snd query s _ (fun p hp => by
          obtain ⟨d, _, hd⟩ := List.mem_map.mp hp
          rw [← hd]),
        map_snd_scored]
  · intro memory retrieve gen timing now h
    rw [chat, if_neg (by simp [h])]

/-- Witness for C5 at a concrete non-greeting chat turn. -/
theorem rerank_stable_descending_witness :
    is_simple_greeting "summary of report".data = false
  ∧ (chat [] "summary of report".data
      (fun _ _ => [{ page_content := "alpha".data, source := none },
                   { page_content := "report summary text".data, source := some "r.txt".data }])
      (.ok none) ⟨0, 0, 0⟩ 0).1.sources
    = (rerank_documents
        [{ page_content := "alpha".data, source := none },
         { page_content := "report summary text".data, source := some "r.txt".data }]
        "summary of report".data).take SIMILARITY_SEARCH_K :=
  ⟨by decide,
    (rerank_stable_descending
      [{ page_content := "alpha".data, source := none },
       { page_content := "report summary text".data, source := some "r.txt".data }]
      "summary of report".data).2.2.2 [] _ (.ok none) ⟨0, 0, 0⟩ 0 (by decide)⟩

/-! ## C6: embed_text is order-preserving, one embedding per text -/

theorem snd_mem_enumFrom {α : Type} (p : Nat × α) :
    ∀ (n : Nat) (l : List α), p ∈ List.enumFrom n l → p.2 ∈ l := by
  intro n l
  induction l generalizing n with
  | nil => intro h; simp at h
  | cons x xs ih =>
    intro h
    rw [List.enumFrom_cons] at h
    rcases List.mem_cons.mp h with h1 | h1
    · rw [h1]
      exact List.mem_cons_self x xs
    · exact List.mem_cons_of_mem x (ih (n + 1) h1)

theorem first_pass_eq (cache : Cache) : ∀ l : List (Nat × List Char),
    first_pass cache l
      = (l.filterMap (fun p => (cache p.2).map fun e => (p.1, e)),
         l.filter (fun p => (cache p.2).isNone)) := by
  intro l
  induction l with
  | nil => rfl
  | cons p ps ih =>
    obtain ⟨idx, t⟩ := p
    rw [first_pass, ih]
    cases hc : cache t <;>
      simp [List.filterMap_cons, List.filter_cons, hc]

theorem second_pass_ok (provider : Provider) : ∀ l : List (Nat × List Char),
    (∀ p ∈ l, (provider p.2).isSome) →
    second_pass provider l = .ok (l.map fun p => (p.1, (provider p.2).getD [])) := by
  intro l
  induction l with
  | nil => intro _; rfl
  | cons p ps ih =>
    intro h
    obtain ⟨idx, t⟩ := p
    obtain ⟨e, he⟩ := Option.isSome_iff_exists.mp (h (idx, t) (List.mem_cons_self _ _))
    rw [second_pass, he, ih fun q hq => h q (List.mem_cons_of_mem _ hq)]
    simp [he, Except.map]

theorem hits_as_map (cache : Cache) (provider : Provider) :
    ∀ l : List (Nat × List Char),
      l.filterMap (fun p => (cache p.2).map fun e => (p.1, e))
        = (l.filter (fun p => (cache p.2).isSome)).map
            (fun p => (p.1, (resolve cache provider p.2).getD [])) := by
  intro l
  induction l with
  | nil => rfl
  | cons p ps ih =>
    obtain ⟨idx, t⟩ := p
    cases hc : cache t <;>
      simp [List.filterMap_cons, List.filter_cons, hc, ih, resolve, Option.orElse]

theorem fetched_as_map (cache : Cache) (provider : Provider)
    (l : List (Nat × List Char)) :
    (l.filter (fun p => (cache p.2).isNone)).map (fun p => (p.1, (provider p.2).getD []))
      = (l.filter (fun p => (cache p.2).isNone)).map
          (fun p => (p.1, (resolve cache provider p.2).getD [])) := by
  refine List.map_congr_left fun p hp => ?_
  have hnone : cache p.2 = none :=
    Option.isNone_iff_eq_none.mp (List.mem_filter.mp hp).2
  rw [resolve, hnone]
  rfl

theorem merged_perm (cache : Cache) (provider : Provider)
    (l : List (Nat × List Char)) :
    (l.filterMap (fun p => (cache p.2).map fun e => (p.1, e))
      ++ (l.filter (fun p => (cache p.2).isNone)).map
          (fun p => (p.1, (provider p.2).getD []))).Perm
      (l.map fun p => (p.1, (resolve cache provider p.2).getD [])) := by
  rw [hits_as_map cache provider, fetched_as_map cache provider, ← List.map_append]
  refine List.Perm.map _ ?_
  have hconv : l.filter (fun p => (cache p.2).isNone)
      = l.filter (fun p => !(cache p.2).isSome) :=
    List.filter_congr fun p _ => by cases cache p.2 <;> rfl
  rw [hconv]
  exact List.filter_append_perm _ l

theorem pairwise_lt_map_enum {α β : Type} (F : Nat × α → Nat × β)
    (hF : ∀ p, (F p).1 = p.1) (l : List α) :
    ((l.enum.map F).map Prod.fst).Nodup
    ∧ (l.enum.map F).Pairwise (fun a b => a.1 < b.1) := by
  have h1 : (l.enum.map F).map Prod.fst = l.enum.map Prod.fst := by
    rw [List.map_map]
    exact List.map_congr_left fun p _ => hF p
  constructor
  · rw [h1, List.enum_map_fst]
    exact List.nodup_range l.length
  · rw [List.pairwise_map]
    have h2 : (l.enum.map Prod.fst).Pairwise (· < ·) := by
      rw [List.enum_map_fst]
      exact List.pairwise_lt_range l.length
    have h3 := List.pairwise_map.mp h2
    exact h3.imp fun hab => by rw [hF, hF]; exact hab

theorem map_comp_snd_enumFrom {β : Type} (g : List Char → β) :
    ∀ (n : Nat) (l : List (List Char)),
      (List.enumFrom n l).map (fun p => g p.2) = l.map g := by
  intro n l
  induction l generalizing n with
  | nil => rfl
  | cons x xs ih => rw [List.enumFrom_cons, List.map_cons, List.map_cons, ih]

/-- One batch of `_process_batch`: when every text resolves (cache hit, or
provider success on a miss), the batch returns exactly one embedding per
text, in input order, each the cache-then-provider resolution of its text. -/
theorem process_batch_ok (cache : Cache) (provider : Provider)
    (batch_texts : List (List Char))
    (h : ∀ t ∈ batch_texts, (resolve cache provider t).isSome) :
    process_batch cache provider batch_texts
      = .ok (batch_texts.map fun t => (resolve cache provider t).getD []) := by
  have hmiss : ∀ p ∈ batch_texts.enum.filter (fun p => (cache p.2).isNone),
      (provider p.2).isSome := by
    intro p hp
    have hmem := List.mem_filter.mp hp
    have hnone : cache p.2 = none := Option.isNone_iff_eq_none.mp hmem.2
    have hres := h p.2 (snd_mem_enumFrom p 0 batch_texts hmem.1)
    rw [resolve, hnone] at hres
    exact hres
  rw [process_batch, first_pass_eq]
  dsimp only
  rw [second_pass_ok provider _ hmiss]
  rw [show ∀ (x : List (Nat × Emb)) (f : List (Nat × Emb) → List Emb),
      (Except.ok x : Except (List Char) (List (Nat × Emb))).map f = .ok (f x)
    from fun x f => rfl]
  have hperm : (List.insertionSort idxLE
      (batch_texts.enum.filterMap (fun p => (cache p.2).map fun e => (p.1, e))
        ++ (batch_texts.enum.filter (fun p => (cache p.2).isNone)).map
            (fun p => (p.1, (provider p.2).getD [])))).Perm
      (batch_texts.enum.map fun p => (p.1, (resolve cache provider p.2).getD [])) :=
    (List.perm_insertionSort idxLE _).trans (merged_perm cache provider batch_texts.enum)
  have htarget := pairwise_lt_map_enum
    (fun p => (p.1, (resolve cache provider p.2).getD [])) (fun _ => rfl) batch_texts
  have hsorted_le := List.sorted_insertionSort idxLE
    (batch_texts.enum.filterMap (fun p => (cache p.2).map fun e => (p.1, e))
      ++ (batch_texts.enum.filter (fun p => (cache p.2).isNone)).map
          (fun p => (p.1, (provider p.2).getD [])))
  have hnodup : ((List.insertionSort idxLE
      (batch_texts.enum.filterMap (fun p => (cache p.2).map fun e => (p.1, e))
        ++ (batch_texts.enum.filter (fun p => (cache p.2).isNone)).map
            (fun p => (p.1, (provider p.2).getD [])))).map Prod.fst).Nodup :=
    ((hperm.map Prod.fst).nodup_iff).mpr htarget.1
  have hne := List.pairwise_map.mp hnodup
  have hsorted_lt : (List.insertionSort idxLE
      (batch_texts.enum.filterMap (fun p => (cache p.2).map fun e => (p.1, e))
        ++ (batch_texts.enum.filter (fun p => (cache p.2).isNone)).map
            (fun p => (p.1, (provider p.2).getD [])))).Pairwise
      (fun a b => a.1 < b.1) :=
    (hsorted_le.and hne).imp fun hab => lt_of_le_of_ne hab.1 hab.2
  have hkey := @List.eq_of_perm_of_sorted (Nat × Emb) (fun a b => a.1 < b.1)
    ⟨fun _ _ h1 h2 => absurd h2 (Nat.lt_asymm h1)⟩ _ _ hperm hsorted_lt htarget.2
  rw [hkey, List.map_map]
  rw [show ((fun x : Nat × Emb => x.2)
      ∘ fun p : Nat × List Char => (p.1, (resolve cache provider p.2).getD []))
    = fun p : Nat × List Char => (resolve cache provider p.2).getD [] from rfl]
  rw [show batch_texts.enum = List.enumFrom 0 batch_texts from rfl]
  rw [map_comp_snd_enumFrom (fun t => (resolve cache provider t).getD []) 0 batch_texts]

/-- C6: `embed_text` returns exactly one embedding per input text, in the
original input order — for every cache state and provider on which each text
resolves, the output is the input-order map of the cache-then-provider
resolution, independent of hit/miss arrival order inside each batch. -/
theorem embed_text_order_preserving (cache : Cache) (provider : Provider)
    (texts : List (List Char))
    (h : ∀ t ∈ texts, (resolve cache provider t).isSome) :
    embed_text_all cache provider texts
      = .ok (texts.map fun t => (resolve cache provider t).getD []) := by
  rw [embed_text_all, toBatches]
  by_cases htx : texts = []
  · rw [dif_pos htx, htx]
    rfl
  · rw [dif_neg htx]
    have h1 : process_batch cache provider (texts.take batch_size)
        = .ok ((texts.take batch_size).map fun t => (resolve cache provider t).getD []) :=
      process_batch_ok cache provider _ fun t ht => h t (List.take_subset _ _ ht)
    have h2 : embed_text_all cache provider (texts.drop batch_size)
        = .ok ((texts.drop batch_size).map fun t => (resolve cache provider t).getD []) :=
      embed_text_order_preserving cache provider (texts.drop batch_size)
        fun t ht => h t (List.drop_subset _ _ ht)
    rw [embed_text_all] at h2
    rw [embed_text, h1]
    rw [show ∀ (x : List Emb) (f : List Emb → Except (List Char) (List Emb)),
        (Except.ok x : Except (List Char) (List Emb)) >>= f = f x from fun x f => rfl]
    rw [h2]
    rw [show ∀ (x : List Emb) (f : List Emb → Except (List Char) (List Emb)),
        (Except.ok x : Except (List Char) (List Emb)) >>= f = f x from fun x f => rfl]
    rw [← List.map_append, List.take_append_drop]
termination_by texts.length
decreasing_by
  cases texts with
  | nil => exact absurd rfl htx
  | cons x xs =>
    simp only [List.length_drop, List.length_cons, batch_size]
    omega

/-- Witness for C6: two texts, one cached, one fetched from the provider. -/
theorem embed_text_order_preserving_witness :
    (∀ t ∈ [("alpha".data : List Char), "beta".data],
      (resolve (fun t => if t = "alpha".data then some [1] else none)
        (fun _ => some [2]) t).isSome)
  ∧ embed_text_all (fun t => if t = "alpha".data then some [1] else none)
      (fun _ => some [2]) ["alpha".data, "beta".data]
    = .ok [[1], [2]] :=
  ⟨by decide, by
    rw [embed_text_order_preserving (fun t => if t = "alpha".data then some [1] else none)
      (fun _ => some [2]) ["alpha".data, "beta".data] (by decide)]
    rfl⟩

/-! ## C2: the context chat passes to generation is NOT budget-bounded -/

theorem dropWhile_isWs_replicate_a (m : Nat) :
    List.dropWhile isWs (List.replicate m 'a') = List.replicate m 'a' := by
  cases m with
  | zero => rfl
  | succ k => rw [List.replicate_succ, List.dropWhile_cons, if_neg (by decide)]

theorem stripWs_replicate_a (m : Nat) :
    stripWs (List.replicate m 'a') = List.replicate m 'a' := by
  rw [stripWs, dropWhile_isWs_replicate_a, List.reverse_replicate,
    dropWhile_isWs_replicate_a, List.reverse_replicate]

/-- C2 is violated by the code: `chat` never calls
`_optimize_context_length`, so a single retrieved chunk of 8,500 characters
makes the context passed to the generation call exceed the configured
`max_context_length = 8000` — no truncation happens at all. -/
theorem chat_context_exceeds_budget :
    is_simple_greeting "question about alpha".data = false
  ∧ ∃ ctx, (chat [] "question about alpha".data
        (fun _ _ => [{ page_content := List.replicate 8500 'a', source := some "doc.txt".data }])
        (.ok none) { retrieval_time := 0, generation_time := 0, total_time := 0 } 0).1.context
      = some ctx
    ∧ max_context_length < ctx.length := by
  have hg : is_simple_greeting "question about alpha".data = false := by decide
  refine ⟨hg, ?_⟩
  rw [chat, if_neg (by simp [hg])]
  refine ⟨_, rfl, ?_⟩
  dsimp only
  rw [show get_memory_context ([] : List Exchange) = [] from rfl]
  rw [if_neg (by simp)]
  have hrr : (rerank_documents
      [({ page_content := List.replicate 8500 'a', source := some "doc.txt".data } : Doc)]
      "question about alpha".data).take SIMILARITY_SEARCH_K
      = [{ page_content := List.replicate 8500 'a', source := some "doc.txt".data }] := by
    rw [rerank_documents, if_neg (List.cons_ne_nil _ _)]
    rfl
  rw [hrr, prepare_context, if_neg (List.cons_ne_nil _ _)]
  dsimp only
  rw [show ([({ page_content := List.replicate 8500 'a', source := some "doc.txt".data } : Doc)].enum)
    = [(0, ({ page_content := List.replicate 8500 'a', source := some "doc.txt".data } : Doc))] from rfl]
  rw [List.map_cons, List.map_nil]
  rw [show ∀ x : List Char, joinSep "\n\n".data [x] = x from fun x => rfl]
  simp only [Option.getD_some, stripWs_replicate_a, List.length_append,
    List.length_replicate, max_context_length]
  omega

/-! ## C3: no validation — the chunking loop never terminates when
`chunk_overlap >= chunk_size` -/

/-- C3 is violated by the code: `create_chunks` performs no validation of the
chunk/overlap configuration.  When `chunk_size <= chunk_overlap` the stride
is non-positive, `start` never reaches `len(text)`, and the `while` loop runs
forever on any non-empty text: no amount of fuel makes the transcribed loop
return (and in particular no `InvalidConfiguration` error is ever raised —
the model has no error outcome at all because the source has none). -/
theorem create_chunks_diverges (chunk_size chunk_overlap : Nat)
    (text source : List Char) (hcs : chunk_size ≤ chunk_overlap) (ht : text ≠ []) :
    ∀ fuel : Nat, create_chunks chunk_size chunk_overlap text source fuel = none := by
  have hlen : 0 < text.length := List.length_pos.mpr ht
  have hlenI : (0 : Int) < (text.length : Int) := by exact_mod_cast hlen
  have key : ∀ (fuel : Nat) (st : Int) (cid : Nat), st ≤ 0 →
      create_chunks_go chunk_size chunk_overlap text source fuel st cid = none := by
    intro fuel
    induction fuel with
    | zero =>
      intro st cid hst
      rw [create_chunks_go, if_pos (lt_of_le_of_lt hst hlenI)]
    | succ n ih =>
      intro st cid hst
      rw [create_chunks_go, if_pos (lt_of_le_of_lt hst hlenI)]
      have hstep : st + ((chunk_size : Int) - (chunk_overlap : Int)) ≤ 0 := by
        have : (chunk_size : Int) ≤ (chunk_overlap : Int) := by exact_mod_cast hcs
        omega
      rw [ih _ (cid + 1) hstep]
      rfl
  intro fuel
  exact key fuel 0 0 le_rfl

/-- Witness for C3 at the concrete failing configuration
`chunk_size = 1, overlap = 1` on the one-character text "a". -/
theorem create_chunks_diverges_witness :
    (1 : Nat) ≤ 1 ∧ ("a".data : List Char) ≠ []
  ∧ create_chunks 1 1 "a".data "t.txt".data 5 = none :=
  ⟨by decide, by decide,
    create_chunks_diverges 1 1 "a".data "t.txt".data (by decide) (by decide) 5⟩

/-! ## C1: the chunk layout of create_chunks -/

theorem pyminI_eq_left (a b : Int) (h : a ≤ b) : pyminI a b = a := by
  rw [pyminI, if_pos h]

theorem pyminI_eq_right (a b : Int) (h : b ≤ a) : pyminI a b = b := by
  rw [pyminI]
  split
  · omega
  · rfl

theorem ceil_div_step (R s : Nat) (hs : 0 < s) (hR : 0 < R) :
    (R - s + s - 1) / s + 1 = (R + s - 1) / s := by
  by_cases h : R ≤ s
  · have h1 : R - s = 0 := by omega
    rw [h1]
    rw [Nat.div_eq_of_lt (by omega)]
    have h3 : (R + s - 1) / s = 1 := by
      rw [show R + s - 1 = (R - 1) + s from by omega, Nat.add_div_right _ hs,
        Nat.div_eq_of_lt (by omega)]
    rw [h3]
  · push_neg at h
    rw [show R - s + s - 1 = (R - s - 1) + s from by omega,
      show R + s - 1 = (R - 1) + s from by omega,
      Nat.add_div_right _ hs, Nat.add_div_right _ hs,
      show R - 1 = (R - s - 1) + s from by omega, Nat.add_div_right _ hs]

/-- Loop invariant of `create_chunks_go` for a valid configuration
(`overlap < chunk_size`) and enough fuel: the loop returns, produces exactly
`ceil((len - start) / stride)` chunks, the chunk at position `i` starts at
`start + i * stride`, and the last chunk (if any) ends exactly at `len`. -/
theorem create_chunks_go_spec (cs ov : Nat) (text source : List Char) (hov : ov < cs) :
    ∀ (fuel st cid : Nat), text.length ≤ st + fuel →
      ∃ l, create_chunks_go cs ov text source fuel (st : Int) cid = some l
        ∧ l.length = (text.length - st + (cs - ov) - 1) / (cs - ov)
        ∧ (∀ i < l.length, l[i]? = some (chunkAt cs text source (st + i * (cs - ov)) (cid + i)))
        ∧ (l ≠ [] → ∃ c, l.getLast? = some c ∧ c.end_char = (text.length : Int)) := by
  have hs : 0 < cs - ov := by omega
  intro fuel
  induction fuel with
  | zero =>
    intro st cid hfuel
    refine ⟨[], ?_, ?_, by intro i hi; simp at hi, by intro hne; exact absurd rfl hne⟩
    · rw [create_chunks_go, if_neg (by omega)]
    · rw [List.length_nil, show text.length - st = 0 from by omega]
      exact (Nat.div_eq_of_lt (by omega)).symm
  | succ n ih =>
    intro st cid hfuel
    by_cases hst : st < text.length
    · have hcast : (st : Int) + ((cs : Int) - (ov : Int)) = ((st + (cs - ov) : Nat) : Int) := by
        push_cast [Nat.cast_sub (le_of_lt hov)]
        ring
      obtain ⟨l', hl', hlen', hidx', hlast'⟩ := ih (st + (cs - ov)) (cid + 1) (by omega)
      have hgo : create_chunks_go cs ov text source (n + 1) (st : Int) cid
          = (create_chunks_go cs ov text source n
              ((st : Int) + ((cs : Int) - (ov : Int))) (cid + 1)).map
            ((chunkAt cs text source st cid) :: ·) := by
        rw [create_chunks_go, if_pos (by omega)]
        rfl
      refine ⟨chunkAt cs text source st cid :: l', ?_, ?_, ?_, ?_⟩
      · rw [hgo, hcast, hl']
        rfl
      · rw [List.length_cons, hlen',
          show text.length - (st + (cs - ov)) = text.length - st - (cs - ov) from by omega]
        exact ceil_div_step (text.length - st) (cs - ov) hs (by omega)
      · intro i hi
        cases i with
        | zero => simp
        | succ j =>
          rw [List.getElem?_cons_succ]
          have hj : j < l'.length := by
            rw [List.length_cons] at hi
            omega
          rw [hidx' j hj,
            show st + (cs - ov) + j * (cs - ov) = st + (j + 1) * (cs - ov) from by
              rw [Nat.succ_mul]; omega,
            show cid + 1 + j = cid + (j + 1) from by omega]
      · intro _
        cases l' with
        | nil =>
          refine ⟨chunkAt cs text source st cid, List.getLast?_singleton _, ?_⟩
          have h0 : text.length - (st + (cs - ov)) + (cs - ov) - 1 < cs - ov := by
            have := hlen'
            rw [List.length_nil] at this
            have h1 := (Nat.div_eq_zero_iff hs).mp this.symm
            omega
          have hle : text.length ≤ st + cs := by omega
          show pyminI ((st : Int) + (cs : Int)) (text.length : Int) = (text.length : Int)
          exact pyminI_eq_right _ _ (by omega)
        | cons d l'' =>
          rw [List.getLast?_cons_cons]
          exact hlast' (by simp)
    · refine ⟨[], ?_, ?_, by intro i hi; simp at hi, by intro hne; exact absurd rfl hne⟩
      · rw [create_chunks_go, if_neg (by omega)]
      · rw [List.length_nil, show text.length - st = 0 from by omega]
        exact (Nat.div_eq_of_lt (by omega)).symm

/-- C1 (amended): for every `chunk_size > overlap >= 0` and non-empty text of
length `L`, `create_chunks` (with fuel `L`, which always suffices) produces
exactly `ceil(L / (chunk_size - overlap))` chunks — not
`ceil(max(0, L - overlap) / (chunk_size - overlap))` as the claim stated —
the first starting at offset 0, the last ending at exactly `L`, and each pair
of consecutive chunks whose earlier chunk is not clipped by the text end
(its start is at least `chunk_size` before `L`) overlapping by exactly
`overlap` characters; a clipped chunk is shorter and the following overlap is
accordingly smaller. -/
theorem create_chunks_layout (cs ov : Nat) (text source : List Char)
    (hov : ov < cs) (hL : 0 < text.length) :
    ∃ l, create_chunks cs ov text source text.length = some l
      ∧ l.length = (text.length + (cs - ov) - 1) / (cs - ov)
      ∧ (∀ c, l.head? = some c → c.start_char = 0)
      ∧ (∀ c, l.getLast? = some c → c.end_char = (text.length : Int))
      ∧ (∀ i a b, l[i]? = some a → l[i + 1]? = some b →
          a.start_char + (cs : Int) ≤ (text.length : Int) →
          a.end_char - b.start_char = (ov : Int)) := by
  obtain ⟨l, hl, hlen, hidx, hlast⟩ :=
    create_chunks_go_spec cs ov text source hov text.length 0 0 (by omega)
  have hlen0 : l.length = (text.length + (cs - ov) - 1) / (cs - ov) := by
    rw [hlen, show text.length - 0 = text.length from by omega]
  have hn : 0 < l.length := by
    rw [hlen0]
    exact Nat.lt_of_lt_of_le Nat.zero_lt_one
      ((Nat.le_div_iff_mul_le (by omega)).mpr (by omega))
  refine ⟨l, by rw [create_chunks]; exact hl, hlen0, ?_, ?_, ?_⟩
  · intro c hc
    rw [List.head?_eq_getElem?, hidx 0 hn] at hc
    rw [← Option.some.inj hc]
    show ((0 + 0 * (cs - ov) : Nat) : Int) = 0
    norm_num
  · intro c hc
    obtain ⟨c', hc', hend⟩ := hlast (List.length_pos.mp hn)
    rw [hc'] at hc
    rw [← Option.some.inj hc]
    exact hend
  · intro i a b ha hb hstart
    have hib : i + 1 < l.length := (List.getElem?_eq_some.mp hb).1
    have hia : i < l.length := by omega
    rw [hidx i hia] at ha
    rw [hidx (i + 1) hib] at hb
    have ha' := Option.some.inj ha
    have hb' := Option.some.inj hb
    subst ha'
    subst hb'
    have hmin : pyminI (((0 + i * (cs - ov) : Nat) : Int) + (cs : Int)) (text.length : Int)
        = ((0 + i * (cs - ov) : Nat) : Int) + (cs : Int) :=
      pyminI_eq_left _ _ hstart
    show pyminI (((0 + i * (cs - ov) : Nat) : Int) + (cs : Int)) (text.length : Int)
        - ((0 + (i + 1) * (cs - ov) : Nat) : Int) = (ov : Int)
    rw [hmin]
    push_cast [Nat.cast_sub hov.le]
    ring

/-- Witness for C1 at the spec's own end-to-end scenario: a 900-character
text with `chunk_size = 200, overlap = 50` (6 chunks). -/
theorem create_chunks_layout_witness :
    (50 : Nat) < 200 ∧ 0 < (List.replicate 900 'a').length
  ∧ ∃ l, create_chunks 200 50 (List.replicate 900 'a') "doc.txt".data
        (List.replicate 900 'a').length = some l
      ∧ l.length = ((List.replicate 900 'a').length + (200 - 50) - 1) / (200 - 50)
      ∧ (∀ c, l.head? = some c → c.start_char = 0)
      ∧ (∀ c, l.getLast? = some c → c.end_char = ((List.replicate 900 'a').length : Int))
      ∧ (∀ i a b, l[i]? = some a → l[i + 1]? = some b →
          a.start_char + (200 : Int) ≤ ((List.replicate 900 'a').length : Int) →
          a.end_char - b.start_char = ((50 : Nat) : Int)) :=
  ⟨by decide, by rw [List.length_replicate]; omega,
    create_chunks_layout 200 50 (List.replicate 900 'a') "doc.txt".data (by decide)
      (by rw [List.length_replicate]; omega)⟩

set_option maxRecDepth 10000 in
/-- C1 counterexample: at `chunk_size = 200, overlap = 150` on a 190-character
text, the code emits 4 chunks — `[0,190), [50,190), [100,190), [150,190)` —
while the claim's formula `ceil(max(0, L - overlap) / (chunk_size - overlap))`
predicts `ceil(40/50) = 1`; moreover the non-final pair `[0,190), [50,190)`
overlaps by 140, not 150, because the earlier chunk is clipped at the text
end. -/
theorem create_chunks_count_counterexample :
    ¬ ((create_chunks 200 150 (List.replicate 190 'a') "doc.txt".data 190).map List.length
        = some ((max 0 (190 - 150) + ((200 - 150) - 1)) / (200 - 150)))
  ∧ (create_chunks 200 150 (List.replicate 190 'a') "doc.txt".data 190).map
      (List.map fun c => (c.start_char, c.end_char))
    = some [(0, 190), (50, 190), (100, 190), (150, 190)] :=
  ⟨by decide, by decide⟩
